import Mathlib

/-!
Verification of `Scripts/extract_heji2_prime_glyphs.py` (Tenney repository).

The script reads a JSON mapping document, decodes the prime-11 base glyph
pair, derives codepoint pairs for a fixed prime sequence by a stride of 2,
checks their availability in the bundled fonts' character maps, summarizes
candidate glyph pairs for primes 29/31 by rendered ink density, and echoes
the current 29/31 mapping entries.

This file shallowly embeds the script's data model and operations: Python
strings become `List Char` (sequences of Unicode scalar values), dicts
become function-typed partial maps built by the same fold of updates the
code performs, fallible code returns `Except`, and the rasterization
backend is abstracted as a pixel-valued function carried by the font.
-/

/-- Fixed target prime sequence (`PRIME_SEQUENCE` in the script). -/
def PRIME_SEQUENCE : List Nat := [11, 13, 17, 19, 23]

/-- Hardcoded candidate (down, up) codepoint pairs for primes 29/31
(`PRIME_29_31_CANDIDATE_PAIRS` in the script). -/
def PRIME_29_31_CANDIDATE_PAIRS : List (Nat × Nat) :=
  [(0xE2EC, 0xE2ED), (0xE2EE, 0xE2EF), (0xE2F0, 0xE2F1), (0xE2F2, 0xE2F3)]

/-- Errors raised by `codepoint_for_glyph` (`ValueError`s in the script). -/
inductive GlyphError : Type where
  | emptyGlyph : GlyphError
  | multiScalar : List Nat → GlyphError
deriving DecidableEq, Repr

/-- Errors that abort `main`: glyph decoding errors, the base-pair semantic
mismatch (`ValueError` at line 107), a missing codepoint (`RuntimeError` at
line 118), and the `KeyError` / `IndexError` a Python dict / list index
raises when a key or index is absent. -/
inductive MainError : Type where
  | glyphErr : GlyphError → MainError
  | baseMismatch : MainError
  | missingCodepoint : Nat → Nat → MainError
  | keyErr : String → MainError
  | indexErr : MainError
deriving DecidableEq, Repr

/-- Decidable equality on `Except`, for evaluating the embedded fallible
operations on concrete inputs. -/
instance {ε α : Type} [DecidableEq ε] [DecidableEq α] : DecidableEq (Except ε α) := fun a b =>
  match a, b with
  | .error e, .error e' =>
      if h : e = e' then .isTrue (by rw [h]) else .isFalse (by simp [h])
  | .error _, .ok _ => .isFalse (by simp)
  | .ok _, .error _ => .isFalse (by simp)
  | .ok v, .ok v' =>
      if h : v = v' then .isTrue (by rw [h]) else .isFalse (by simp [h])

/-- `codepoint_for_glyph`: derive the single Unicode scalar value of a
one-character glyph string. A Python `str` is a sequence of Unicode scalar
values, embedded here as `List Char`; `ord` is `Char.toNat`. -/
def codepoint_for_glyph (glyph : List Char) : Except GlyphError Nat :=
  match glyph.map Char.toNat with
  | [] => .error .emptyGlyph
  | s :: rest =>
      if rest.isEmpty then .ok s
      else .error (.multiScalar (s :: rest))

/-- One Python dict assignment `d[k] = v` on a codepoint-keyed map. -/
def dictInsert (d : Nat → Option String) (kv : Nat × String) : Nat → Option String :=
  fun cp => if cp = kv.1 then some kv.2 else d cp

/-- Python `d.update(t)`: assign every pair of `t`, in order, into `d`. -/
def dictUpdate (d : Nat → Option String) (t : List (Nat × String)) : Nat → Option String :=
  t.foldl dictInsert d

/-- `load_cmap`: union of all cmap subtables of a font, built exactly as the
script does — starting from an empty dict and calling `update` with each
subtable in order. A subtable is embedded as its ordered list of
(codepoint, glyph name) items. -/
def load_cmap (tables : List (List (Nat × String))) : Nat → Option String :=
  tables.foldl dictUpdate (fun _ => none)

/-- Modelled from the spec's words ("later subtables overriding earlier ones
on key collision"): the value of the LAST pair of a subtable whose key
matches the codepoint. Used only to compare with `load_cmap`. -/
def lookupLast : List (Nat × String) → Nat → Option String
  | [], _ => none
  | kv :: rest, cp =>
      match lookupLast rest cp with
      | some v => some v
      | none => if cp = kv.1 then some kv.2 else none

/-- Modelled from the spec's words: last-writer-wins union lookup — the
value the LATEST subtable containing the codepoint assigns to it. Used only
to compare with `load_cmap`. -/
def lastWriterWinsSpec : List (List (Nat × String)) → Nat → Option String
  | [], _ => none
  | t :: rest, cp =>
      match lastWriterWinsSpec rest cp with
      | some v => some v
      | none => lookupLast t cp

/-- A font, for the parts of `TTFont` the script touches: the cmap subtable
list, the `hmtx` table (glyph name to (advance width, left side bearing)),
and the rasterization backend abstracted as the 8-bit grayscale pixel value
`raster codepoint x y` of drawing `chr(codepoint)` on the 200 by 200 white
canvas. -/
structure Font : Type where
  cmapTables : List (List (Nat × String))
  hmtx : String → Nat × Int
  raster : Nat → Nat → Nat → Nat

/-- `all_codepoints`: union of the key sets of every font's merged cmap,
as a membership predicate. -/
def all_codepoints (fonts : List Font) : Nat → Bool :=
  fun cp => fonts.any (fun f => (load_cmap f.cmapTables cp).isSome)

/-- The script's ink-counting double loop: the number of positions of the
200 by 200 canvas whose pixel value is strictly below 128. -/
def inkCount (px : Nat → Nat → Nat) : Nat :=
  ((List.range 200).map
    (fun y => ((List.range 200).filter (fun x => px x y < 128)).length)).sum

/-- Modelled from the spec's words ("count of pixels with luminance below
128"): the cardinality of the set of dark positions of the canvas. Used
only to compare with `inkCount`. -/
def specInkCount (px : Nat → Nat → Nat) : Nat :=
  ((Finset.range 200 ×ˢ Finset.range 200).filter
    (fun q => px q.2 q.1 < 128)).card

/-- `glyph_metrics`: advance width and ink ratio of a codepoint in a font;
`(0, 0)` when the merged cmap has no glyph name for the codepoint. The
Python float division `ink / total` is embedded as exact division in `ℚ`. -/
def glyph_metrics (font : Font) (codepoint : Nat) : Nat × ℚ :=
  match load_cmap font.cmapTables codepoint with
  | none => (0, 0)
  | some name =>
      ((font.hmtx name).1, (inkCount (font.raster codepoint) : ℚ) / (200 * 200))

/-- Per-font average ink ratio of a candidate pair's two codepoints. -/
def avg_ink (font : Font) (pair : Nat × Nat) : ℚ :=
  ((glyph_metrics font pair.1).2 + (glyph_metrics font pair.2).2) / 2

/-- Mean of the per-font average ink ratios of a pair, over the font list
(the summarizer's `sum(...) / len(...)` selection key). -/
def pairMeanInk (fonts : List Font) (pair : Nat × Nat) : ℚ :=
  (fonts.map (fun f => avg_ink f pair)).sum / (fonts.length : ℚ)

/-- Python `min(..., key=k)`: scan the list keeping the current minimum,
replacing it only when a strictly smaller key appears — so the first
element attaining the minimal key wins. -/
def pyMinFold {α : Type} (key : α → ℚ) (x : α) (xs : List α) : α :=
  xs.foldl (fun best y => if key y < key best then y else best) x

/-- The summarizer's `bracket_pair` selection: the candidate pair with
minimal mean ink ratio, first wins on ties. -/
def bracket_pair (fonts : List Font) : Nat × Nat :=
  match PRIME_29_31_CANDIDATE_PAIRS with
  | [] => (0, 0)
  | x :: xs => pyMinFold (pairMeanInk fonts) x xs

/-- A glyph record of the mapping document (`{"glyph": "<char>"}`); the
`glyph` key may be absent, as the echo code path uses `.get`. -/
structure GlyphRecord : Type where
  glyph? : Option (List Char)
deriving DecidableEq

/-- A multiplicity entry of the mapping document: optional ordered record
lists for the `down` and `up` directions. -/
structure MultEntry : Type where
  down? : Option (List GlyphRecord)
  up? : Option (List GlyphRecord)
deriving DecidableEq

/-- `mapping["primeComponents"]`: prime (as text) to multiplicity (as text)
to entry, both levels partial as Python dicts are. -/
def PrimeComponents : Type := String → Option (String → Option MultEntry)

/-- `primes[prime][mult][direction][0]["glyph"]` — the direct-indexing
chain `main` uses for the prime-11 base glyphs, raising `KeyError` /
`IndexError` where Python would. -/
def getGlyphString (primes : PrimeComponents) (prime mult dirName : String)
    (dir : MultEntry → Option (List GlyphRecord)) : Except MainError (List Char) :=
  match primes prime with
  | none => .error (.keyErr prime)
  | some pm =>
      match pm mult with
      | none => .error (.keyErr mult)
      | some entry =>
          match dir entry with
          | none => .error (.keyErr dirName)
          | some recs =>
              match recs.head? with
              | none => .error .indexErr
              | some r0 =>
                  match r0.glyph? with
                  | none => .error (.keyErr "glyph")
                  | some g => .ok g

/-- Lift a glyph decoding error into a `main` error. -/
def liftGlyph : Except GlyphError Nat → Except MainError Nat
  | .error e => .error (.glyphErr e)
  | .ok v => .ok v

/-- `base_down = codepoint_for_glyph(primes["11"]["1"]["down"][0]["glyph"])`. -/
def base_down_of (primes : PrimeComponents) : Except MainError Nat :=
  match getGlyphString primes "11" "1" "down" MultEntry.down? with
  | .error e => .error e
  | .ok g => liftGlyph (codepoint_for_glyph g)

/-- `base_up = codepoint_for_glyph(primes["11"]["1"]["up"][0]["glyph"])`. -/
def base_up_of (primes : PrimeComponents) : Except MainError Nat :=
  match getGlyphString primes "11" "1" "up" MultEntry.up? with
  | .error e => .error e
  | .ok g => liftGlyph (codepoint_for_glyph g)

/-- The verification loop of `main` over the enumerated prime sequence:
derive `down = base + idx * 2`, `up = down + 1`, record the pair, and raise
`RuntimeError` on the first codepoint (down checked before up) absent from
the availability set. -/
def verifyLoop (base : Nat) (avail : Nat → Bool) :
    List (Nat × Nat) → Except MainError (List (Nat × Nat × Nat))
  | [] => .ok []
  | ip :: rest =>
      if avail (base + ip.1 * 2) = false then
        .error (.missingCodepoint (base + ip.1 * 2) ip.2)
      else if avail (base + ip.1 * 2 + 1) = false then
        .error (.missingCodepoint (base + ip.1 * 2 + 1) ip.2)
      else
        match verifyLoop base avail rest with
        | .error e => .error e
        | .ok out => .ok ((ip.2, base + ip.1 * 2, base + ip.1 * 2 + 1) :: out)

/-- The verifier applied to the fixed prime sequence. -/
def verifySequence (base : Nat) (avail : Nat → Bool) :
    Except MainError (List (Nat × Nat × Nat)) :=
  verifyLoop base avail PRIME_SEQUENCE.enum

/-- The resolved mapping `main` prints on success: prime at index `i` maps
to `(base + i * 2, base + i * 2 + 1)`. -/
def expectedResolved (base : Nat) : List (Nat × Nat × Nat) :=
  PRIME_SEQUENCE.enum.map (fun ip => (ip.2, base + ip.1 * 2, base + ip.1 * 2 + 1))

/-- `primes.get(str(prime), {}).get("1", {})` of the echo code path. -/
def entryOf (primes : PrimeComponents) (p : Nat) : MultEntry :=
  ((primes (Nat.repr p)).getD (fun _ => none) "1").getD ⟨none, none⟩

/-- `entry.get("down", [{}])[0].get("glyph", "")` of the echo code path,
with the `[0]` index defaulted (the echo itself raises where Python would). -/
def downStrOf (primes : PrimeComponents) (p : Nat) : List Char :=
  ((((entryOf primes p).down?.getD [⟨none⟩]).head?.getD ⟨none⟩).glyph?).getD []

/-- `entry.get("up", [{}])[0].get("glyph", "")` of the echo code path,
with the `[0]` index defaulted. -/
def upStrOf (primes : PrimeComponents) (p : Nat) : List Char :=
  ((((entryOf primes p).up?.getD [⟨none⟩]).head?.getD ⟨none⟩).glyph?).getD []

/-- The current-mapping echo for one prime (lines 128-134 of the script):
`some line` when a line is printed, `none` when the prime is skipped,
`error` when the Python code would raise. -/
def echoPrime (primes : PrimeComponents) (p : Nat) :
    Except MainError (Option (Nat × Nat × Nat)) :=
  match ((entryOf primes p).down?.getD [⟨none⟩]).head? with
  | none => .error .indexErr
  | some rd =>
      match ((entryOf primes p).up?.getD [⟨none⟩]).head? with
      | none => .error .indexErr
      | some ru =>
          if (rd.glyph?.getD []) ≠ [] ∧ (ru.glyph?.getD []) ≠ [] then
            match codepoint_for_glyph (rd.glyph?.getD []) with
            | .error e => .error (.glyphErr e)
            | .ok dcp =>
                match codepoint_for_glyph (ru.glyph?.getD []) with
                | .error e => .error (.glyphErr e)
                | .ok ucp => .ok (some (p, dcp, ucp))
          else .ok none

/-- The externally visible data `main` computes: the resolved prime mapping
and the echoed 29/31 lines (the candidate-pair summary only prints and is
embedded separately by `bracket_pair`). -/
structure MainOutput : Type where
  resolved : List (Nat × Nat × Nat)
  echo : List (Nat × Nat × Nat)
deriving DecidableEq

/-- `main`: decode the prime-11 base pair, check the `up = down + 1`
invariant, verify the derived codepoints against the fonts' merged
character maps, and echo the document's 29/31 entries. -/
def runMain (primes : PrimeComponents) (fonts : List Font) :
    Except MainError MainOutput :=
  match base_down_of primes with
  | .error e => .error e
  | .ok base_down =>
      match base_up_of primes with
      | .error e => .error e
      | .ok base_up =>
          if base_up ≠ base_down + 1 then .error .baseMismatch
          else
            match verifySequence base_down (all_codepoints fonts) with
            | .error e => .error e
            | .ok resolved =>
                match echoPrime primes 29 with
                | .error e => .error e
                | .ok e29 =>
                    match echoPrime primes 31 with
                    | .error e => .error e
                    | .ok e31 => .ok ⟨resolved, e29.toList ++ e31.toList⟩

/-- A concrete mapping document holding only the prime-11 multiplicity-1
entry, with the given down and up glyph strings. -/
def mkBaseDoc (downG upG : List Char) : PrimeComponents :=
  fun p =>
    if p = "11" then
      some (fun m =>
        if m = "1" then some ⟨some [⟨some downG⟩], some [⟨some upG⟩]⟩ else none)
    else none

/-- A concrete font whose single cmap subtable covers exactly the
codepoints `0xE2D0` through `0xE2DD` (the availability set of the
end-to-end scenario). -/
def scenarioFont : Font :=
  ⟨[(List.range 14).map (fun i => (0xE2D0 + i, "g"))], fun _ => (0, 0), fun _ _ _ => 255⟩

/-- A concrete mapping document whose prime-29 entry carries a two-scalar
down glyph `"ab"` and a one-scalar up glyph `"c"`. -/
def cexEchoDoc : PrimeComponents :=
  fun p =>
    if p = "29" then
      some (fun m =>
        if m = "1" then
          some ⟨some [⟨some ['a', 'b']⟩], some [⟨some ['c']⟩]⟩
        else none)
    else none

/-- A concrete mapping document whose prime-29 entry carries well-formed
one-scalar glyphs in both directions. -/
def wEchoDoc : PrimeComponents :=
  fun p =>
    if p = "29" then
      some (fun m =>
        if m = "1" then some ⟨some [⟨some ['x']⟩], some [⟨some ['y']⟩]⟩ else none)
    else none

/-! ### Helper lemmas -/

/-- Left-biased choice on options, for relating dict folds to lookups. -/
def optOr {α : Type} (a b : Option α) : Option α :=
  match a with
  | some x => some x
  | none => b

theorem optOr_none_right {α : Type} (a : Option α) : optOr a none = a := by
  cases a <;> rfl

theorem dictUpdate_eq_lookupLast (t : List (Nat × String)) :
    ∀ (d : Nat → Option String) (cp : Nat),
    dictUpdate d t cp = optOr (lookupLast t cp) (d cp) := by
  induction t with
  | nil => intro d cp; rfl
  | cons kv rest ih =>
      intro d cp
      show dictUpdate (dictInsert d kv) rest cp = _
      rw [ih]
      cases h : lookupLast rest cp with
      | some v => simp [lookupLast, h, optOr]
      | none =>
          simp only [lookupLast, h, optOr, dictInsert]
          split <;> rfl

theorem load_cmap_foldl_eq (tables : List (List (Nat × String))) :
    ∀ (d : Nat → Option String) (cp : Nat),
    tables.foldl dictUpdate d cp = optOr (lastWriterWinsSpec tables cp) (d cp) := by
  induction tables with
  | nil => intro d cp; rfl
  | cons t rest ih =>
      intro d cp
      show rest.foldl dictUpdate (dictUpdate d t) cp = _
      rw [ih, dictUpdate_eq_lookupLast]
      cases h : lastWriterWinsSpec rest cp with
      | some v => simp [lastWriterWinsSpec, h, optOr]
      | none =>
          simp only [lastWriterWinsSpec, h, optOr]

theorem load_cmap_eq_lastWriter (tables : List (List (Nat × String))) (cp : Nat) :
    load_cmap tables cp = lastWriterWinsSpec tables cp := by
  show tables.foldl dictUpdate (fun _ => none) cp = _
  rw [load_cmap_foldl_eq]
  exact optOr_none_right _

theorem lookupLast_isSome_of_mem {t : List (Nat × String)} {kv : Nat × String}
    (h : kv ∈ t) : (lookupLast t kv.1).isSome = true := by
  induction t with
  | nil => cases h
  | cons hd rest ih =>
      simp only [lookupLast]
      cases hl : lookupLast rest kv.1 with
      | some v => simp
      | none =>
          rcases List.mem_cons.mp h with heq | hmem
          · subst heq; simp
          · have hh := ih hmem
            rw [hl] at hh
            simp at hh

theorem lastWriter_isSome_of_table {tables : List (List (Nat × String))}
    {t : List (Nat × String)} {cp : Nat} (ht : t ∈ tables)
    (h : (lookupLast t cp).isSome = true) :
    (lastWriterWinsSpec tables cp).isSome = true := by
  induction tables with
  | nil => cases ht
  | cons t' rest ih =>
      simp only [lastWriterWinsSpec]
      cases hl : lastWriterWinsSpec rest cp with
      | some v => simp
      | none =>
          rcases List.mem_cons.mp ht with heq | hmem
          · subst heq; exact h
          · have hh := ih hmem
            rw [hl] at hh
            simp at hh

/-! ### Claim C3 — Codepoint Resolver -/

/-- Claim C3: `codepoint_for_glyph` errors on the empty string, errors on
any string of two or more Unicode scalar values, and returns the scalar
value of every one-scalar string, including values above `0xFFFF` (every
`Char` is covered, so in particular all valid scalars outside the 16-bit
range); as a pure function it has no side effects. -/
theorem C3_codepoint_resolver :
    codepoint_for_glyph [] = .error .emptyGlyph
    ∧ (∀ (c₁ c₂ : Char) (rest : List Char),
        codepoint_for_glyph (c₁ :: c₂ :: rest) =
          .error (.multiScalar ((c₁ :: c₂ :: rest).map Char.toNat)))
    ∧ (∀ c : Char, codepoint_for_glyph [c] = .ok c.toNat) := by
  refine ⟨rfl, ?_, ?_⟩
  · intro c₁ c₂ rest
    simp [codepoint_for_glyph]
  · intro c
    simp [codepoint_for_glyph]

/-! ### Claim C5 — Font Character-Map Reader -/

/-- Claim C5: `load_cmap` returns the left-to-right union of the font's
cmap subtables: every key of every subtable is present in the result, and
at every codepoint the result equals the last-writer-wins lookup — the
value assigned by the latest subtable (last matching pair within it)
containing that codepoint, so on a collision the later subtable's name
wins. -/
theorem C5_load_cmap_union (tables : List (List (Nat × String))) :
    (∀ t ∈ tables, ∀ kv ∈ t, (load_cmap tables kv.1).isSome = true)
    ∧ ∀ cp, load_cmap tables cp = lastWriterWinsSpec tables cp := by
  constructor
  · intro t ht kv hkv
    rw [load_cmap_eq_lastWriter]
    exact lastWriter_isSome_of_table ht (lookupLast_isSome_of_mem hkv)
  · intro cp
    exact load_cmap_eq_lastWriter tables cp

/-- Witness for C5 at a concrete two-subtable font whose subtables collide
on codepoint 1: the key is present and the later subtable's name wins. -/
theorem C5_witness :
    (load_cmap [[(1, "a")], [(1, "b")]] 1).isSome = true
    ∧ load_cmap [[(1, "a")], [(1, "b")]] 1 = lastWriterWinsSpec [[(1, "a")], [(1, "b")]] 1
    ∧ lastWriterWinsSpec [[(1, "a")], [(1, "b")]] 1 = some "b" :=
  ⟨(C5_load_cmap_union [[(1, "a")], [(1, "b")]]).1 [(1, "a")] (by simp) (1, "a") (by simp),
   (C5_load_cmap_union [[(1, "a")], [(1, "b")]]).2 1, by rfl⟩

/-! ### Claim C7 — Glyph Metrics Sampler, absent glyph -/

/-- Claim C7: for every font and codepoint, if the merged character map has
no glyph name for the codepoint, `glyph_metrics` returns `(0, 0)` rather
than failing; when a name is present it returns the `hmtx` advance width
and rasterized ink ratio, so absence is the sole locally recovered
condition. -/
theorem C7_glyph_metrics_absent :
    (∀ (font : Font) (cp : Nat),
        load_cmap font.cmapTables cp = none → glyph_metrics font cp = (0, 0))
    ∧ ∀ (font : Font) (cp : Nat) (name : String),
        load_cmap font.cmapTables cp = some name →
          glyph_metrics font cp =
            ((font.hmtx name).1, (inkCount (font.raster cp) : ℚ) / (200 * 200)) := by
  constructor
  · intro font cp h
    simp [glyph_metrics, h]
  · intro font cp name h
    simp [glyph_metrics, h]

/-- Witness for C7: a font with no cmap subtables yields the zero sample at
codepoint `0xE2D0`. -/
theorem C7_witness :
    glyph_metrics ⟨[], fun _ => (0, 0), fun _ _ _ => 255⟩ 0xE2D0 = (0, 0) :=
  C7_glyph_metrics_absent.1 ⟨[], fun _ => (0, 0), fun _ _ _ => 255⟩ 0xE2D0 rfl

/-! ### Claim C8 — ink ratio -/

theorem list_map_sum_range (f : Nat → Nat) (n : Nat) :
    ((List.range n).map f).sum = ∑ i in Finset.range n, f i := by
  induction n with
  | zero => simp
  | succ n ih =>
      rw [List.range_succ]
      simp [ih, Finset.sum_range_succ]

theorem list_filter_length_range (p : Nat → Bool) (n : Nat) :
    ((List.range n).filter p).length = ∑ x in Finset.range n, if p x then 1 else 0 := by
  induction n with
  | zero => simp
  | succ n ih =>
      rw [List.range_succ, List.filter_append, Finset.sum_range_succ, List.length_append, ih]
      by_cases hp : p n <;> simp [hp]

theorem inkCount_eq_spec (px : Nat → Nat → Nat) : inkCount px = specInkCount px := by
  unfold specInkCount
  rw [Finset.card_filter, Finset.sum_product]
  unfold inkCount
  rw [list_map_sum_range]
  refine Finset.sum_congr rfl ?_
  intro y _
  rw [list_filter_length_range]
  refine Finset.sum_congr rfl ?_
  intro x _
  simp

theorem specInkCount_le (px : Nat → Nat → Nat) : specInkCount px ≤ 40000 := by
  unfold specInkCount
  calc ((Finset.range 200 ×ˢ Finset.range 200).filter
          (fun q => px q.2 q.1 < 128)).card
      ≤ (Finset.range 200 ×ˢ Finset.range 200).card := Finset.card_filter_le _ _
    _ = 40000 := by simp [Finset.card_product]

/-- Claim C8: for a present glyph, the ink ratio equals the number of
canvas positions whose 8-bit pixel value is strictly below 128 divided by
40000, and for every raster content this ratio lies in `[0, 1]`. -/
theorem C8_ink_ratio (font : Font) (cp : Nat) (name : String)
    (h : load_cmap font.cmapTables cp = some name) :
    (glyph_metrics font cp).2 = (specInkCount (font.raster cp) : ℚ) / 40000
    ∧ 0 ≤ (glyph_metrics font cp).2 ∧ (glyph_metrics font cp).2 ≤ 1 := by
  have hg : (glyph_metrics font cp).2 = (inkCount (font.raster cp) : ℚ) / (200 * 200) := by
    simp [glyph_metrics, h]
  have h200 : ((200 * 200 : ℕ) : ℚ) = 40000 := by norm_num
  have hg40 : (glyph_metrics font cp).2 = (specInkCount (font.raster cp) : ℚ) / 40000 := by
    rw [hg, inkCount_eq_spec]
    norm_num
  refine ⟨hg40, ?_, ?_⟩
  · rw [hg40]
    exact div_nonneg (Nat.cast_nonneg _) (by norm_num)
  · rw [hg40, div_le_one (by norm_num)]
    exact_mod_cast specInkCount_le (font.raster cp)

/-- Witness for C8: a one-glyph font with an all-white raster has its ink
ratio in `[0, 1]`. -/
theorem C8_witness :
    load_cmap (Font.mk [[(5, "gFive")]] (fun _ => (3, 0)) (fun _ _ _ => 255)).cmapTables 5 =
      some "gFive"
    ∧ 0 ≤ (glyph_metrics (Font.mk [[(5, "gFive")]] (fun _ => (3, 0)) (fun _ _ _ => 255)) 5).2
    ∧ (glyph_metrics (Font.mk [[(5, "gFive")]] (fun _ => (3, 0)) (fun _ _ _ => 255)) 5).2 ≤ 1 :=
  ⟨rfl, (C8_ink_ratio (Font.mk [[(5, "gFive")]] (fun _ => (3, 0)) (fun _ _ _ => 255)) 5
    "gFive" rfl).2⟩

/-! ### Verifier loop lemmas -/

theorem verifyLoop_ok_of_all (base : Nat) (avail : Nat → Bool) :
    ∀ items : List (Nat × Nat),
    (∀ ip ∈ items, avail (base + ip.1 * 2) = true ∧ avail (base + ip.1 * 2 + 1) = true) →
    verifyLoop base avail items =
      .ok (items.map (fun ip => (ip.2, base + ip.1 * 2, base + ip.1 * 2 + 1))) := by
  intro items
  induction items with
  | nil => intro _; rfl
  | cons ip rest ih =>
      intro h
      have h1 := h ip (List.mem_cons_self _ _)
      have h2 : ∀ q ∈ rest, avail (base + q.1 * 2) = true ∧ avail (base + q.1 * 2 + 1) = true :=
        fun q hq => h q (List.mem_cons_of_mem _ hq)
      simp [verifyLoop, h1.1, h1.2, ih h2]

theorem verifyLoop_ok_eq (base : Nat) (avail : Nat → Bool) :
    ∀ (items : List (Nat × Nat)) (out : List (Nat × Nat × Nat)),
    verifyLoop base avail items = .ok out →
    out = items.map (fun ip => (ip.2, base + ip.1 * 2, base + ip.1 * 2 + 1)) := by
  intro items
  induction items with
  | nil => intro out h; simpa [verifyLoop] using h.symm
  | cons ip rest ih =>
      intro out h
      cases hd : avail (base + ip.1 * 2) with
      | false => simp [verifyLoop, hd] at h
      | true =>
          cases hu : avail (base + ip.1 * 2 + 1) with
          | false => simp [verifyLoop, hd, hu] at h
          | true =>
              cases hrest : verifyLoop base avail rest with
              | error e => simp [verifyLoop, hd, hu, hrest] at h
              | ok out' =>
                  simp only [verifyLoop, hd, hu, hrest] at h
                  simp at h
                  rw [← h, ih out' hrest]
                  simp

theorem verifyLoop_error_shape (base : Nat) (avail : Nat → Bool) :
    ∀ (items : List (Nat × Nat)) (e : MainError),
    verifyLoop base avail items = .error e →
    ∃ ip ∈ items,
      (e = .missingCodepoint (base + ip.1 * 2) ip.2 ∧ avail (base + ip.1 * 2) = false)
      ∨ (e = .missingCodepoint (base + ip.1 * 2 + 1) ip.2
          ∧ avail (base + ip.1 * 2 + 1) = false) := by
  intro items
  induction items with
  | nil => intro e h; simp [verifyLoop] at h
  | cons ip rest ih =>
      intro e h
      cases hd : avail (base + ip.1 * 2) with
      | false =>
          simp [verifyLoop, hd] at h
          exact ⟨ip, List.mem_cons_self _ _, Or.inl ⟨h.symm, hd⟩⟩
      | true =>
          cases hu : avail (base + ip.1 * 2 + 1) with
          | false =>
              simp [verifyLoop, hd, hu] at h
              exact ⟨ip, List.mem_cons_self _ _, Or.inr ⟨h.symm, hu⟩⟩
          | true =>
              cases hrest : verifyLoop base avail rest with
              | error e' =>
                  simp [verifyLoop, hd, hu, hrest] at h
                  obtain ⟨q, hq, hcase⟩ := ih e' hrest
                  subst h
                  exact ⟨q, List.mem_cons_of_mem _ hq, hcase⟩
              | ok out' => simp [verifyLoop, hd, hu, hrest] at h

theorem verifyLoop_error_of_missing (base : Nat) (avail : Nat → Bool) :
    ∀ items : List (Nat × Nat),
    (∃ ip ∈ items, avail (base + ip.1 * 2) = false ∨ avail (base + ip.1 * 2 + 1) = false) →
    ∃ e, verifyLoop base avail items = .error e := by
  intro items
  induction items with
  | nil => rintro ⟨ip, hip, _⟩; cases hip
  | cons ip rest ih =>
      rintro ⟨q, hq, hcase⟩
      cases hd : avail (base + ip.1 * 2) with
      | false =>
          exact ⟨.missingCodepoint (base + ip.1 * 2) ip.2, by simp [verifyLoop, hd]⟩
      | true =>
          cases hu : avail (base + ip.1 * 2 + 1) with
          | false =>
              exact ⟨.missingCodepoint (base + ip.1 * 2 + 1) ip.2, by simp [verifyLoop, hd, hu]⟩
          | true =>
              rcases List.mem_cons.mp hq with heq | hmem
              · subst heq
                rcases hcase with hc | hc
                · rw [hd] at hc; cases hc
                · rw [hu] at hc; cases hc
              · obtain ⟨e, he⟩ := ih ⟨q, hmem, hcase⟩
                exact ⟨e, by simp [verifyLoop, hd, hu, he]⟩

theorem expectedResolved_eq (base : Nat) :
    expectedResolved base =
      [(11, base + 0 * 2, base + 0 * 2 + 1), (13, base + 1 * 2, base + 1 * 2 + 1),
       (17, base + 2 * 2, base + 2 * 2 + 1), (19, base + 3 * 2, base + 3 * 2 + 1),
       (23, base + 4 * 2, base + 4 * 2 + 1)] := rfl

theorem mem_enum_prime (ip : Nat × Nat) (h : ip ∈ PRIME_SEQUENCE.enum) :
    ip.1 < PRIME_SEQUENCE.length ∧ PRIME_SEQUENCE[ip.1]? = some ip.2 := by
  have henum : PRIME_SEQUENCE.enum = [(0, 11), (1, 13), (2, 17), (3, 19), (4, 23)] := rfl
  rw [henum] at h
  simp at h
  rcases h with h | h | h | h | h <;> subst h <;> exact ⟨by simp [PRIME_SEQUENCE], rfl⟩

theorem enum_mem_of_lt (i : Nat) (h : i < PRIME_SEQUENCE.length) :
    ∃ p, (i, p) ∈ PRIME_SEQUENCE.enum := by
  have h5 : i < 5 := by simpa [PRIME_SEQUENCE] using h
  interval_cases i
  · exact ⟨11, by decide⟩
  · exact ⟨13, by decide⟩
  · exact ⟨17, by decide⟩
  · exact ⟨19, by decide⟩
  · exact ⟨23, by decide⟩

/-! ### Claim C2 — stride-derived pairs -/

/-- Claim C2: whenever the verifier completes, the resolved list pairs the
prime at 0-based index `i` of the fixed sequence with
`(base + 2 * i, base + 2 * i + 1)`; consequently every resolved `up` equals
its `down` plus 1, and consecutive `down` values increase by exactly 2 in
sequence order. -/
theorem C2_stride_pairs (base : Nat) (avail : Nat → Bool) (out : List (Nat × Nat × Nat))
    (h : verifySequence base avail = .ok out) :
    out = expectedResolved base
    ∧ (∀ i p, PRIME_SEQUENCE[i]? = some p → out[i]? = some (p, base + i * 2, base + i * 2 + 1))
    ∧ (∀ e ∈ out, e.2.2 = e.2.1 + 1)
    ∧ (∀ i a b, out[i]? = some a → out[i + 1]? = some b → b.2.1 = a.2.1 + 2) := by
  have hout : out = expectedResolved base := verifyLoop_ok_eq base avail PRIME_SEQUENCE.enum out h
  subst hout
  refine ⟨rfl, ?_, ?_, ?_⟩
  · intro i p hp
    have hi : i < 5 := by
      by_contra hge
      rw [List.getElem?_eq_none (by simp [PRIME_SEQUENCE]; omega)] at hp
      cases hp
    rw [expectedResolved_eq]
    interval_cases i <;> simp_all [PRIME_SEQUENCE]
  · intro e he
    rw [expectedResolved_eq] at he
    simp at he
    rcases he with h1 | h1 | h1 | h1 | h1 <;> subst h1 <;> rfl
  · intro i a b ha hb
    have hi : i + 1 < 5 := by
      by_contra hge
      rw [expectedResolved_eq, List.getElem?_eq_none (by simp; omega)] at hb
      cases hb
    have hi4 : i < 4 := by omega
    rw [expectedResolved_eq] at ha hb
    interval_cases i <;>
      (simp only [List.getElem?_cons_zero, List.getElem?_cons_succ, Option.some.injEq] at ha hb
       subst ha
       subst hb
       rfl)

/-- Witness for C2: with base `0xE2D0` and a total availability set the
verifier succeeds with the stride-derived list, and every resolved up
codepoint is its down codepoint plus 1. -/
theorem C2_witness :
    verifySequence 0xE2D0 (fun _ => true) = .ok (expectedResolved 0xE2D0)
    ∧ ∀ e ∈ expectedResolved 0xE2D0, e.2.2 = e.2.1 + 1 := by
  have h : verifySequence 0xE2D0 (fun _ => true) = .ok (expectedResolved 0xE2D0) := by decide
  exact ⟨h, (C2_stride_pairs 0xE2D0 (fun _ => true) (expectedResolved 0xE2D0) h).2.2.1⟩

/-! ### Claim C6 — missing-codepoint errors -/

/-- Claim C6: the verifier raises a missing-codepoint error naming the
missing codepoint and its owning prime exactly when some derived down or up
codepoint of some target prime is absent from the availability set; when
every derived codepoint is present it completes without error, and every
error it can raise is a missing-codepoint error. -/
theorem C6_missing_codepoint (base : Nat) (avail : Nat → Bool) :
    ((∃ cp p, verifySequence base avail = .error (.missingCodepoint cp p)
        ∧ avail cp = false
        ∧ ∃ i, i < PRIME_SEQUENCE.length ∧ PRIME_SEQUENCE[i]? = some p
            ∧ (cp = base + i * 2 ∨ cp = base + i * 2 + 1))
      ↔ ∃ i, i < PRIME_SEQUENCE.length
          ∧ (avail (base + i * 2) = false ∨ avail (base + i * 2 + 1) = false))
    ∧ ((∀ i, i < PRIME_SEQUENCE.length →
          avail (base + i * 2) = true ∧ avail (base + i * 2 + 1) = true) →
        verifySequence base avail = .ok (expectedResolved base))
    ∧ (∀ e, verifySequence base avail = .error e → ∃ cp p, e = .missingCodepoint cp p) := by
  refine ⟨⟨?_, ?_⟩, ?_, ?_⟩
  · rintro ⟨cp, p, herr, hav, i, hi, hp, hcp⟩
    refine ⟨i, hi, ?_⟩
    rcases hcp with rfl | rfl
    · exact Or.inl hav
    · exact Or.inr hav
  · rintro ⟨i, hi, hmiss⟩
    obtain ⟨p, hmem⟩ := enum_mem_of_lt i hi
    obtain ⟨e, he⟩ :=
      verifyLoop_error_of_missing base avail PRIME_SEQUENCE.enum ⟨(i, p), hmem, hmiss⟩
    obtain ⟨ip, hip, hcase⟩ := verifyLoop_error_shape base avail PRIME_SEQUENCE.enum e he
    obtain ⟨hlt, hget⟩ := mem_enum_prime ip hip
    rcases hcase with ⟨rfl, hfa⟩ | ⟨rfl, hfa⟩
    · exact ⟨base + ip.1 * 2, ip.2, he, hfa, ip.1, hlt, hget, Or.inl rfl⟩
    · exact ⟨base + ip.1 * 2 + 1, ip.2, he, hfa, ip.1, hlt, hget, Or.inr rfl⟩
  · intro h
    refine verifyLoop_ok_of_all base avail PRIME_SEQUENCE.enum ?_
    intro ip hip
    obtain ⟨hlt, _⟩ := mem_enum_prime ip hip
    exact h ip.1 hlt
  · intro e he
    obtain ⟨ip, _, hcase⟩ := verifyLoop_error_shape base avail PRIME_SEQUENCE.enum e he
    rcases hcase with ⟨rfl, _⟩ | ⟨rfl, _⟩
    · exact ⟨base + ip.1 * 2, ip.2, rfl⟩
    · exact ⟨base + ip.1 * 2 + 1, ip.2, rfl⟩

/-- Witness for C6: with an empty availability set the verifier raises a
missing-codepoint error naming a derived codepoint and its owning prime. -/
theorem C6_witness :
    ∃ cp p, verifySequence 0xE2D0 (fun _ => false) = .error (.missingCodepoint cp p)
      ∧ (fun _ => false : Nat → Bool) cp = false
      ∧ ∃ i, i < PRIME_SEQUENCE.length ∧ PRIME_SEQUENCE[i]? = some p
          ∧ (cp = 0xE2D0 + i * 2 ∨ cp = 0xE2D0 + i * 2 + 1) :=
  (C6_missing_codepoint 0xE2D0 (fun _ => false)).1.mpr
    ⟨0, by simp [PRIME_SEQUENCE], Or.inl rfl⟩

/-! ### Claim C4 — base-pair invariant -/

/-- Claim C4: when the decoded prime-11 up codepoint is not the down
codepoint plus 1, `main` aborts with the semantic-mismatch error for every
font list — the availability set is never consulted and no resolved entry
is produced. -/
theorem C4_base_mismatch (primes : PrimeComponents) (d u : Nat)
    (hd : base_down_of primes = .ok d) (hu : base_up_of primes = .ok u)
    (hne : u ≠ d + 1) (fonts : List Font) :
    runMain primes fonts = .error .baseMismatch := by
  unfold runMain
  rw [hd, hu]
  simp [hne]

/-- Witness for C4: a document decoding to down `0xE2D0`, up `0xE2D5`
aborts with the base-mismatch error even with no fonts at all. -/
theorem C4_witness :
    runMain (mkBaseDoc [Char.ofNat 0xE2D0] [Char.ofNat 0xE2D5]) [] = .error .baseMismatch :=
  C4_base_mismatch (mkBaseDoc [Char.ofNat 0xE2D0] [Char.ofNat 0xE2D5]) 0xE2D0 0xE2D5
    (by decide) (by decide) (by decide) []

/-! ### Claim C1 — end-to-end resolved mapping -/

/-- Claim C1 (amended): with the prime-11 glyphs at `0xE2D0`/`0xE2D1` and
an availability set covering `0xE2D0` through `0xE2DD`, the main run
resolves exactly the fixed sequence `[11, 13, 17, 19, 23]`, each prime
receiving its stride-derived pair; primes 29 and 31 are not part of the
resolver's target sequence. -/
theorem C1_resolved_mapping :
    PRIME_SEQUENCE = [11, 13, 17, 19, 23]
    ∧ runMain (mkBaseDoc [Char.ofNat 0xE2D0] [Char.ofNat 0xE2D1]) [scenarioFont] =
        .ok ⟨[(11, 0xE2D0, 0xE2D1), (13, 0xE2D2, 0xE2D3), (17, 0xE2D4, 0xE2D5),
              (19, 0xE2D6, 0xE2D7), (23, 0xE2D8, 0xE2D9)], []⟩ := by
  exact ⟨rfl, by decide⟩

/-- Counterexample to C1 as stated: the fixed target sequence is not
`[11, 13, 17, 19, 23, 29, 31]`, and on the claim's scenario input the main
run's resolved mapping contains no entry for prime 29 or 31. -/
theorem C1_counterexample :
    PRIME_SEQUENCE ≠ [11, 13, 17, 19, 23, 29, 31]
    ∧ runMain (mkBaseDoc [Char.ofNat 0xE2D0] [Char.ofNat 0xE2D1]) [scenarioFont] =
        .ok ⟨[(11, 0xE2D0, 0xE2D1), (13, 0xE2D2, 0xE2D3), (17, 0xE2D4, 0xE2D5),
              (19, 0xE2D6, 0xE2D7), (23, 0xE2D8, 0xE2D9)], []⟩
    ∧ [(11, 0xE2D0, 0xE2D1), (13, 0xE2D2, 0xE2D3), (17, 0xE2D4, 0xE2D5),
       (19, 0xE2D6, 0xE2D7), (23, 0xE2D8, 0xE2D9)].map
        (fun e : Nat × Nat × Nat => e.1) = [11, 13, 17, 19, 23]
    ∧ ¬ (29 ∈ ([11, 13, 17, 19, 23] : List Nat))
    ∧ ¬ (31 ∈ ([11, 13, 17, 19, 23] : List Nat)) := by decide

/-! ### Claim C9 — candidate pair selection -/

theorem pyMinFold_spec {α : Type} (key : α → ℚ) :
    ∀ (xs : List α) (x : α),
    ∃ n, (x :: xs)[n]? = some (pyMinFold key x xs)
      ∧ (∀ y ∈ x :: xs, key (pyMinFold key x xs) ≤ key y)
      ∧ ∀ y ∈ (x :: xs).take n, key (pyMinFold key x xs) < key y := by
  intro xs
  induction xs with
  | nil =>
      intro x
      refine ⟨0, rfl, ?_, ?_⟩
      · intro y hy
        simp at hy
        subst hy
        exact le_refl _
      · intro y hy
        simp at hy
  | cons z zs ih =>
      intro x
      by_cases hzx : key z < key x
      · obtain ⟨n, h1, h2, h3⟩ := ih z
        have hr : pyMinFold key x (z :: zs) = pyMinFold key z zs := by
          show pyMinFold key (if key z < key x then z else x) zs = _
          rw [if_pos hzx]
        refine ⟨n + 1, ?_, ?_, ?_⟩
        · rw [hr]
          simpa using h1
        · intro y hy
          rw [hr]
          rcases List.mem_cons.mp hy with rfl | hy'
          · exact le_of_lt (lt_of_le_of_lt (h2 z (List.mem_cons_self _ _)) hzx)
          · exact h2 y hy'
        · intro y hy
          rw [List.take_succ_cons] at hy
          rw [hr]
          rcases List.mem_cons.mp hy with rfl | hy'
          · exact lt_of_le_of_lt (h2 z (List.mem_cons_self _ _)) hzx
          · exact h3 y hy'
      · obtain ⟨n, h1, h2, h3⟩ := ih x
        have hr : pyMinFold key x (z :: zs) = pyMinFold key x zs := by
          show pyMinFold key (if key z < key x then z else x) zs = _
          rw [if_neg hzx]
        have hxz : key x ≤ key z := le_of_not_lt hzx
        cases n with
        | zero =>
            simp only [List.getElem?_cons_zero, Option.some.injEq] at h1
            refine ⟨0, ?_, ?_, ?_⟩
            · rw [hr]
              simpa using h1
            · intro y hy
              rw [hr, ← h1]
              rcases List.mem_cons.mp hy with rfl | hy'
              · exact le_refl _
              · rcases List.mem_cons.mp hy' with rfl | hy''
                · exact hxz
                · rw [h1]
                  exact h2 y (List.mem_cons_of_mem _ hy'')
            · intro y hy
              simp at hy
        | succ m =>
            simp only [List.getElem?_cons_succ] at h1
            refine ⟨m + 2, ?_, ?_, ?_⟩
            · rw [hr]
              simpa using h1
            · intro y hy
              rw [hr]
              rcases List.mem_cons.mp hy with rfl | hy'
              · exact h2 y (List.mem_cons_self _ _)
              · rcases List.mem_cons.mp hy' with rfl | hy''
                · exact le_trans (h2 x (List.mem_cons_self _ _)) hxz
                · exact h2 y (List.mem_cons_of_mem _ hy'')
            · intro y hy
              rw [List.take_succ_cons, List.take_succ_cons] at hy
              rw [hr]
              have hxlt : key (pyMinFold key x zs) < key x := by
                refine h3 x ?_
                rw [List.take_succ_cons]
                exact List.mem_cons_self _ _
              rcases List.mem_cons.mp hy with rfl | hy'
              · exact hxlt
              · rcases List.mem_cons.mp hy' with rfl | hy''
                · exact lt_of_lt_of_le hxlt hxz
                · refine h3 y ?_
                  rw [List.take_succ_cons]
                  exact List.mem_cons_of_mem _ hy''

/-- Claim C9: for every font list, the recommended bracket pair occurs in
the candidate list, its mean ink ratio is minimal over all four candidate
pairs, and every candidate pair listed before it has a strictly larger
mean — so on ties the first minimal pair in candidate-list order is
selected. -/
theorem C9_bracket_first_min (fonts : List Font) :
    ∃ n, PRIME_29_31_CANDIDATE_PAIRS[n]? = some (bracket_pair fonts)
      ∧ (∀ q ∈ PRIME_29_31_CANDIDATE_PAIRS,
          pairMeanInk fonts (bracket_pair fonts) ≤ pairMeanInk fonts q)
      ∧ ∀ q ∈ PRIME_29_31_CANDIDATE_PAIRS.take n,
          pairMeanInk fonts (bracket_pair fonts) < pairMeanInk fonts q :=
  pyMinFold_spec (pairMeanInk fonts)
    [(0xE2EE, 0xE2EF), (0xE2F0, 0xE2F1), (0xE2F2, 0xE2F3)] (0xE2EC, 0xE2ED)

/-- Witness for C9: with an empty font list the selected pair's mean ink
ratio is at most that of the first candidate pair. -/
theorem C9_witness :
    pairMeanInk [] (bracket_pair []) ≤ pairMeanInk [] (0xE2EC, 0xE2ED) := by
  obtain ⟨n, h1, h2, h3⟩ := C9_bracket_first_min []
  exact h2 (0xE2EC, 0xE2ED) (by decide)

/-! ### Claim C10 — 29/31 current-mapping echo -/

/-- Counterexample to C10 as stated: a prime-29 entry with a two-scalar
down glyph `"ab"` and up glyph `"c"` has both glyph strings non-empty, yet
the echo raises a multi-scalar glyph error instead of printing a line. -/
theorem C10_counterexample :
    downStrOf cexEchoDoc 29 ≠ [] ∧ upStrOf cexEchoDoc 29 ≠ []
    ∧ echoPrime cexEchoDoc 29 = .error (.glyphErr (.multiScalar [97, 98])) := by decide

/-- Claim C10 (amended): provided the entry's defaulted down and up record
lists are non-empty and each glyph string encodes at most one scalar, the
echo prints a line for a prime exactly when the down and up glyph strings
are both non-empty; a missing entry or one carrying a glyph for only one
direction is skipped silently, with no output and no error. -/
theorem C10_echo_amended (primes : PrimeComponents) (p : Nat)
    (hd : (entryOf primes p).down?.getD [⟨none⟩] ≠ [])
    (hu : (entryOf primes p).up?.getD [⟨none⟩] ≠ [])
    (hsd : (downStrOf primes p).length ≤ 1)
    (hsu : (upStrOf primes p).length ≤ 1) :
    ((∃ d u, echoPrime primes p = .ok (some (p, d, u)))
      ↔ (downStrOf primes p ≠ [] ∧ upStrOf primes p ≠ []))
    ∧ ((downStrOf primes p = [] ∨ upStrOf primes p = []) →
        echoPrime primes p = .ok none) := by
  rcases hld : (entryOf primes p).down?.getD [⟨none⟩] with _ | ⟨rd, dtl⟩
  · exact absurd hld hd
  rcases hlu : (entryOf primes p).up?.getD [⟨none⟩] with _ | ⟨ru, utl⟩
  · exact absurd hlu hu
  have hds : downStrOf primes p = rd.glyph?.getD [] := by
    unfold downStrOf
    rw [hld]
    rfl
  have hus : upStrOf primes p = ru.glyph?.getD [] := by
    unfold upStrOf
    rw [hlu]
    rfl
  have hecho : echoPrime primes p =
      (if (rd.glyph?.getD []) ≠ [] ∧ (ru.glyph?.getD []) ≠ [] then
        match codepoint_for_glyph (rd.glyph?.getD []) with
        | .error e => .error (.glyphErr e)
        | .ok dcp =>
            match codepoint_for_glyph (ru.glyph?.getD []) with
            | .error e => .error (.glyphErr e)
            | .ok ucp => .ok (some (p, dcp, ucp))
      else .ok none) := by
    unfold echoPrime
    rw [hld, hlu]
    rfl
  rw [hds] at hsd
  rw [hus] at hsu
  rw [hds, hus]
  by_cases hde : rd.glyph?.getD [] = []
  · constructor
    · constructor
      · rintro ⟨d, u, hok⟩
        rw [hecho, if_neg (by simp [hde])] at hok
        cases hok
      · rintro ⟨hdne, _⟩
        exact absurd hde hdne
    · intro _
      rw [hecho, if_neg (by simp [hde])]
  · by_cases hue : ru.glyph?.getD [] = []
    · constructor
      · constructor
        · rintro ⟨d, u, hok⟩
          rw [hecho, if_neg (by simp [hue])] at hok
          cases hok
        · rintro ⟨_, hune⟩
          exact absurd hue hune
      · intro _
        rw [hecho, if_neg (by simp [hue])]
    · rcases hdg : rd.glyph?.getD [] with _ | ⟨c, ctl⟩
      · exact absurd hdg hde
      rcases hug : ru.glyph?.getD [] with _ | ⟨c', ctl'⟩
      · exact absurd hug hue
      rw [hdg] at hsd
      rw [hug] at hsu
      have hctl : ctl = [] := by
        cases ctl with
        | nil => rfl
        | cons a t => simp at hsd
      have hctl' : ctl' = [] := by
        cases ctl' with
        | nil => rfl
        | cons a t => simp at hsu
      subst hctl
      subst hctl'
      constructor
      · constructor
        · intro _
          exact ⟨by simp, by simp⟩
        · intro _
          refine ⟨c.toNat, c'.toNat, ?_⟩
          rw [hecho, hdg, hug, if_pos (by simp)]
          simp [codepoint_for_glyph]
      · intro habs
        rcases habs with h | h <;> simp at h

/-- Witness for C10: a well-formed prime-29 entry with one-scalar glyphs in
both directions gets a line printed. -/
theorem C10_witness :
    ∃ d u, echoPrime wEchoDoc 29 = .ok (some (29, d, u)) :=
  ((C10_echo_amended wEchoDoc 29 (by decide) (by decide) (by decide) (by decide)).1.mpr
    (by decide))
